import Mathlib

/-!
Verification of the multi-base HFT optimizer core (belief-explorer).

Shallow embedding conventions:
* Python floats (prices, spreads, fractions) are modelled as exact rationals `ℚ`
  (the spec's data model calls a Price "a finite real number").
* Python unbounded ints are `ℤ`; register words and counters are `ℕ`.
* Python `int(x)` truncates toward zero (`pyInt`).
* Python `x >> k` on an int is an arithmetic shift, i.e. floor division, which is
  `>>> : ℤ → ℕ → ℤ` in Lean; Python `x & (2^k - 1)` on an int equals the
  non-negative remainder `x % 2^k`, which is `Int.emod`, Lean's `%`.
* Python strings are lists of characters; result dictionaries are association
  lists `List (String × PyVal)` in field-insertion order.
-/

namespace MultiBase

/-- Python `int(q)` for a real (here rational) `q`: truncation toward zero. -/
def pyInt (q : ℚ) : ℤ := if q < 0 then ⌈q⌉ else ⌊q⌋

/-! ### Fixed-point price codec (`pynq_optimizer_driver.MultiBaseOptimizer`)

`_write_price` computes `fixed_price = int(price * (2**32))`, then
`price_h = (fixed_price >> 32) & 0xFFFF` and `price_l = fixed_price & 0xFFFFFFFF`;
the two words are written to 32-bit registers, hence `ℕ` results.
`_read_price` reads two register words and returns
`(((price_h & 0xFFFF) << 32) | price_l) / (2**32)`. -/

/-- Embedding of `MultiBaseOptimizer._write_price` (the encode half of the codec). -/
def encodePrice (price : ℚ) : ℕ × ℕ :=
  let fixed_price : ℤ := pyInt (price * 2 ^ 32)
  (((fixed_price >>> (32 : ℕ)) % 0x10000).toNat, (fixed_price % 0x100000000).toNat)

/-- Embedding of `MultiBaseOptimizer._read_price` (the decode half of the codec);
the two arguments are the 32-bit register words. -/
def decodePrice (price_h price_l : ℕ) : ℚ :=
  (((((price_h &&& 0xFFFF) <<< 32) ||| price_l : ℕ) : ℤ) : ℚ) / 2 ^ 32

/-- Bitwise-or of a left-shifted word with a word below the shift amount is
plain addition. -/
theorem lor_two_pow_mul_add (k : ℕ) : ∀ a b : ℕ, b < 2 ^ k →
    (a * 2 ^ k) ||| b = a * 2 ^ k + b := by
  induction k with
  | zero =>
      intro a b hb
      interval_cases b
      simp
  | succ k ih =>
      intro a b hb
      have hp : 2 ^ (k + 1) = 2 ^ k * 2 := pow_succ 2 k
      have hdiv : (a * 2 ^ (k + 1) ||| b) / 2 = a * 2 ^ k + b / 2 := by
        rw [Nat.or_div_two]
        have h1 : a * 2 ^ (k + 1) / 2 = a * 2 ^ k := by
          rw [hp, ← Nat.mul_assoc]
          exact Nat.mul_div_cancel _ (by norm_num)
        rw [h1]
        exact ih a (b / 2) (by omega)
      have hx : a * 2 ^ (k + 1) % 2 = 0 := by
        rw [hp, ← Nat.mul_assoc]
        exact Nat.mul_mod_left _ 2
      have hmod : (a * 2 ^ (k + 1) ||| b) % 2 = b % 2 := by
        rcases Nat.mod_two_eq_zero_or_one b with hb2 | hb2
        · rcases Nat.mod_two_eq_zero_or_one (a * 2 ^ (k + 1) ||| b) with h | h
          · omega
          · rw [Nat.or_mod_two_eq_one] at h
            omega
        · rw [hb2, Nat.or_mod_two_eq_one]
          omega
      have hq : a * 2 ^ (k + 1) = a * 2 ^ k * 2 := by
        rw [hp, Nat.mul_assoc]
      have hdm := Nat.div_add_mod (a * 2 ^ (k + 1) ||| b) 2
      have hdm2 := Nat.div_add_mod b 2
      omega

/-- For a non-negative argument Python truncation is the floor. -/
theorem pyInt_eq_floor (q : ℚ) (h : 0 ≤ q) : pyInt q = ⌊q⌋ := by
  unfold pyInt
  rw [if_neg (not_lt.mpr h)]

/-- Python truncation of an integer value is that integer. -/
theorem pyInt_intCast (n : ℤ) : pyInt ((n : ℤ) : ℚ) = n := by
  unfold pyInt
  split
  · exact Int.ceil_intCast n
  · exact Int.floor_intCast n

/-- Evaluation of the encoder on a non-negative price, with the scaled value
written as a natural number. -/
theorem encodePrice_of_nonneg (p : ℚ) (h0 : 0 ≤ p) :
    encodePrice p = ((⌊p * 2 ^ 32⌋.toNat >>> 32) % 65536,
      ⌊p * 2 ^ 32⌋.toNat % 4294967296) := by
  have hq0 : (0 : ℚ) ≤ p * 2 ^ 32 := by positivity
  have hfl0 : (0 : ℤ) ≤ ⌊p * 2 ^ 32⌋ := Int.floor_nonneg.mpr hq0
  set N : ℕ := ⌊p * 2 ^ 32⌋.toNat with hN
  have hNZ : ⌊p * 2 ^ 32⌋ = (N : ℤ) := (Int.toNat_of_nonneg hfl0).symm
  simp only [encodePrice]
  rw [pyInt_eq_floor _ hq0, hNZ, Int.shiftRight_eq_div_pow]
  simp only [Prod.mk.injEq, Nat.shiftRight_eq_div_pow]
  constructor
  · omega
  · omega

/-- Evaluation of the decoder on two in-range register words. -/
theorem decodePrice_eq_of_lt (h l : ℕ) (hh : h < 65536) (hl : l < 4294967296) :
    decodePrice h l = ((h * 2 ^ 32 + l : ℕ) : ℚ) / 2 ^ 32 := by
  unfold decodePrice
  rw [show (65535 : ℕ) = 2 ^ 16 - 1 by norm_num]
  rw [Nat.and_pow_two_sub_one_of_lt_two_pow (by omega)]
  rw [Nat.shiftLeft_eq]
  rw [lor_two_pow_mul_add 32 h l (by omega)]
  push_cast
  ring

/-- C1 (amended part): for `0 ≤ price < 2^16` the decode of the encode is within
`2^-32` of the original price. -/
theorem c1_roundtrip_nonneg (p : ℚ) (h0 : 0 ≤ p) (h1 : p < 2 ^ 16) :
    |decodePrice (encodePrice p).1 (encodePrice p).2 - p| < 1 / 2 ^ 32 := by
  have hq0 : (0 : ℚ) ≤ p * 2 ^ 32 := by positivity
  have hqlt : p * 2 ^ 32 < 2 ^ 48 := by
    have := mul_lt_mul_of_pos_right h1 (show (0 : ℚ) < 2 ^ 32 by positivity)
    calc p * 2 ^ 32 < 2 ^ 16 * 2 ^ 32 := this
      _ = 2 ^ 48 := by norm_num
  have hfl0 : (0 : ℤ) ≤ ⌊p * 2 ^ 32⌋ := Int.floor_nonneg.mpr hq0
  have hfllt : ⌊p * 2 ^ 32⌋ < 2 ^ 48 := by
    rw [Int.floor_lt]
    exact_mod_cast hqlt
  have hNlt : ⌊p * 2 ^ 32⌋.toNat < 2 ^ 48 := by omega
  rw [encodePrice_of_nonneg p h0]
  rw [decodePrice_eq_of_lt _ _ (Nat.mod_lt _ (by norm_num)) (Nat.mod_lt _ (by norm_num))]
  have hrecomb : (⌊p * 2 ^ 32⌋.toNat >>> 32) % 65536 * 2 ^ 32 +
      ⌊p * 2 ^ 32⌋.toNat % 4294967296 = ⌊p * 2 ^ 32⌋.toNat := by
    rw [Nat.shiftRight_eq_div_pow]
    omega
  rw [hrecomb]
  have hcast : ((⌊p * 2 ^ 32⌋.toNat : ℕ) : ℚ) = ((⌊p * 2 ^ 32⌋ : ℤ) : ℚ) := by
    exact_mod_cast congrArg (fun z : ℤ => (z : ℚ)) (Int.toNat_of_nonneg hfl0)
  rw [hcast]
  have hle : ((⌊p * 2 ^ 32⌋ : ℤ) : ℚ) ≤ p * 2 ^ 32 := Int.floor_le _
  have hgt : p * 2 ^ 32 < ((⌊p * 2 ^ 32⌋ : ℤ) : ℚ) + 1 := Int.lt_floor_add_one _
  rw [abs_sub_comm, abs_of_nonneg (by
    rw [sub_nonneg, div_le_iff₀ (by positivity : (0 : ℚ) < 2 ^ 32)]
    linarith)]
  rw [sub_lt_iff_lt_add, div_add_div_same, lt_div_iff₀ (by positivity : (0 : ℚ) < 2 ^ 32)]
  linarith

/-- C1 witness: the round-trip bound holds at the concrete price `5/2`. -/
theorem c1_roundtrip_nonneg_witness :
    (0 : ℚ) ≤ 5 / 2 ∧ (5 / 2 : ℚ) < 2 ^ 16 ∧
    |decodePrice (encodePrice (5 / 2)).1 (encodePrice (5 / 2)).2 - 5 / 2| < 1 / 2 ^ 32 :=
  ⟨by norm_num, by norm_num, c1_roundtrip_nonneg (5 / 2) (by norm_num) (by norm_num)⟩

/-- C1 counterexample: the claim fails for a negative in-range price. The decoder
performs no sign extension, so the encoded price `-1` decodes to `65535`, which is
not within `2^-32` of `-1`. -/
theorem c1_counterexample_neg :
    decodePrice (encodePrice (-1)).1 (encodePrice (-1)).2 = 65535 ∧
    ¬ |decodePrice (encodePrice (-1)).1 (encodePrice (-1)).2 - (-1)| < 1 / 2 ^ 32 := by
  have h : ((-1 : ℚ) * 2 ^ 32) = ((-4294967296 : ℤ) : ℚ) := by norm_num
  have henc : encodePrice (-1) = (65535, 0) := by
    simp only [encodePrice, h, pyInt_intCast]
    decide
  have hdec : decodePrice 65535 0 = 65535 := by
    have h2 : ((65535 &&& 65535) <<< 32 ||| 0 : ℕ) = 281470681743360 := by decide
    simp only [decodePrice, h2]
    norm_num
  rw [henc]
  refine ⟨hdec, ?_⟩
  rw [hdec]
  norm_num

/-- C2 (amended part): the encoder never signals overflow; it silently wraps, so for
non-negative prices the encoding is periodic with period `2^16` and an out-of-range
price aliases an in-range encoding. -/
theorem c2_encode_wraps (p : ℚ) (h0 : 0 ≤ p) :
    encodePrice (p + 2 ^ 16) = encodePrice p := by
  have h1 : (0 : ℚ) ≤ p + 2 ^ 16 := by positivity
  rw [encodePrice_of_nonneg p h0, encodePrice_of_nonneg _ h1]
  have hsc : (p + 2 ^ 16) * 2 ^ 32 = p * 2 ^ 32 + ((281474976710656 : ℤ) : ℚ) := by
    push_cast
    ring
  have hfl : ⌊(p + 2 ^ 16) * 2 ^ 32⌋ = ⌊p * 2 ^ 32⌋ + 281474976710656 := by
    rw [hsc, Int.floor_add_int]
  have hfl0 : (0 : ℤ) ≤ ⌊p * 2 ^ 32⌋ := Int.floor_nonneg.mpr (by positivity)
  rw [hfl]
  simp only [Prod.mk.injEq, Nat.shiftRight_eq_div_pow]
  constructor
  · omega
  · omega

/-- C2 witness: the wrap equation at the concrete price `0`. -/
theorem c2_encode_wraps_witness :
    (0 : ℚ) ≤ 0 ∧ encodePrice (0 + 2 ^ 16) = encodePrice 0 :=
  ⟨le_refl 0, c2_encode_wraps 0 (le_refl 0)⟩

/-- C2 counterexample: a price that does not fit in 16 signed integer bits is not
rejected; `2^16` silently encodes to the very same words as the in-range price `0`. -/
theorem c2_counterexample_overflow :
    encodePrice 65536 = (0, 0) ∧ encodePrice 0 = (0, 0) := by
  have h1 : ((65536 : ℚ) * 2 ^ 32) = ((281474976710656 : ℤ) : ℚ) := by norm_num
  have h2 : ((0 : ℚ) * 2 ^ 32) = ((0 : ℤ) : ℚ) := by norm_num
  constructor
  · simp only [encodePrice, h1, pyInt_intCast]
    decide
  · simp only [encodePrice, h2, pyInt_intCast]
    decide

/-! ### Dozenal converter (`multi_base_optimizer.MultiBaseCalculator`)

Python strings are embedded as `List Char`. -/

/-- The dozenal digit alphabet `"0123456789AB"`. -/
def DOZENAL_DIGITS : List Char :=
  ['0', '1', '2', '3', '4', '5', '6', '7', '8', '9', 'A', 'B']

/-- Python string indexing `s[i]` for an index with `-len ≤ i < len`: a negative
index counts from the end of the string, i.e. the character at position
`i mod len`. -/
def pyIndex (s : List Char) (i : ℤ) : Char :=
  s.getD (i % (s.length : ℤ)).toNat ' '

/-- Embedding of the `while value > 0` digit loop of
`MultiBaseCalculator._int_to_dozenal`: least-significant dozenal digit first. -/
def intToDozenalCore : ℕ → List Char
  | 0 => []
  | v + 1 =>
      DOZENAL_DIGITS.getD ((v + 1) % 12) ' ' :: intToDozenalCore ((v + 1) / 12)
decreasing_by exact Nat.div_lt_self (Nat.succ_pos v) (by norm_num)

/-- Embedding of `MultiBaseCalculator._int_to_dozenal`: the digits are collected
least-significant first, a sign is appended for a negative value, and the list is
reversed. -/
def intToDozenal (value : ℤ) : List Char :=
  if value = 0 then ['0']
  else if value < 0 then (intToDozenalCore value.natAbs ++ ['-']).reverse
  else (intToDozenalCore value.natAbs).reverse

/-- The early-termination threshold `1e-10` of `_frac_to_dozenal`, modelled as the
exact rational denoted by the literal. -/
def fracEps : ℚ := 1 / 10 ^ 10

/-- Embedding of the digit loop of `MultiBaseCalculator._frac_to_dozenal`:
multiply the residual by 12, emit the character `DOZENAL_DIGITS[int(value)]`
(for a negative residual `int(value)` is a Python negative index into the
alphabet), subtract the digit, and stop after appending once the residual drops
below `1e-10`. -/
def fracLoop : ℚ → ℕ → List Char
  | _, 0 => []
  | v, max_digits + 1 =>
      if v * 12 - (pyInt (v * 12) : ℚ) < fracEps
      then [pyIndex DOZENAL_DIGITS (pyInt (v * 12))]
      else pyIndex DOZENAL_DIGITS (pyInt (v * 12)) ::
        fracLoop (v * 12 - (pyInt (v * 12) : ℚ)) max_digits

/-- Embedding of `MultiBaseCalculator._frac_to_dozenal`. -/
def fracToDozenal (value : ℚ) (max_digits : ℕ) : List Char :=
  if value = 0 then [] else fracLoop value max_digits

/-- Embedding of `MultiBaseCalculator.to_dozenal` (the call site fixes
`max_digits = 8`). -/
def toDozenal (decimal_value : ℚ) : List Char :=
  if decimal_value = 0 then ['0']
  else if fracToDozenal (decimal_value - (pyInt decimal_value : ℚ)) 8 ≠ [] then
    intToDozenal (pyInt decimal_value) ++
      '.' :: fracToDozenal (decimal_value - (pyInt decimal_value : ℚ)) 8
  else intToDozenal (pyInt decimal_value)

/-- Python `str.split('.')` on a character list. -/
def splitDot : List Char → List (List Char)
  | [] => [[]]
  | c :: cs =>
      if c = '.' then [] :: splitDot cs
      else
        match splitDot cs with
        | [] => [[c]]
        | p :: ps => (c :: p) :: ps

/-- Python `DOZENAL_DIGITS.index(c.upper())`: the value of one dozenal digit
character; `none` models the `ValueError` raised for a character outside the
alphabet. -/
def digitValue (c : Char) : Option ℕ :=
  DOZENAL_DIGITS.indexOf? c.toUpper

/-- The integer-part loop of `from_dozenal`: the digits are enumerated reversed
(least significant first) and contribute `digit_value * 12 ^ i`. -/
def parseIntLE : List Char → Option ℚ
  | [] => some 0
  | c :: cs => do
      let d ← digitValue c
      let rest ← parseIntLE cs
      pure ((d : ℚ) + 12 * rest)

/-- The fractional-part loop of `from_dozenal`: digit `i` (zero-based)
contributes `digit_value * 12 ^ (-(i + 1))`. -/
def parseFracDigits : List Char → Option ℚ
  | [] => some 0
  | c :: cs => do
      let d ← digitValue c
      let rest ← parseFracDigits cs
      pure (((d : ℚ) + rest) / 12)

/-- Shared body of `from_dozenal` after sign stripping: split on the dot, parse
the integer part over the reversed digits, then the fractional part. -/
def fromDozenalCore (s : List Char) : Option ℚ := do
  let iv ← parseIntLE ((splitDot s).headD []).reverse
  let fv ← parseFracDigits (((splitDot s).drop 1).headD [])
  pure (iv + fv)

/-- Embedding of `MultiBaseCalculator.from_dozenal`: an optional leading minus
sign is stripped and the final value negated. -/
def fromDozenal (dozenal_str : List Char) : Option ℚ :=
  if dozenal_str.head? = some '-' then
    (fromDozenalCore dozenal_str.tail).map (fun r => -r)
  else fromDozenalCore dozenal_str

/-- Every digit character of the dozenal alphabet parses back to its value. -/
theorem digitValue_getD : ∀ d : ℕ, d < 12 →
    digitValue (DOZENAL_DIGITS.getD d ' ') = some d := by
  decide

/-- In-range alphabet lookups return characters of the alphabet. -/
theorem getD_mem_DOZENAL : ∀ d : ℕ, d < 12 →
    DOZENAL_DIGITS.getD d ' ' ∈ DOZENAL_DIGITS := by
  decide

/-- Alphabet characters are neither the dot nor the minus sign. -/
theorem mem_DOZENAL_ne (c : Char) (h : c ∈ DOZENAL_DIGITS) :
    c ≠ '.' ∧ c ≠ '-' := by
  fin_cases h <;> exact ⟨by decide, by decide⟩

/-- All characters produced by the integer digit loop are alphabet characters. -/
theorem intToDozenalCore_mem (n : ℕ) : ∀ c ∈ intToDozenalCore n, c ∈ DOZENAL_DIGITS := by
  induction n using Nat.strong_induction_on with
  | _ n ih =>
      cases n with
      | zero => intro c hc; simp [intToDozenalCore] at hc
      | succ v =>
          intro c hc
          simp only [intToDozenalCore, List.mem_cons] at hc
          rcases hc with hc | hc
          · rw [hc]
            exact getD_mem_DOZENAL _ (Nat.mod_lt _ (by norm_num))
          · exact ih ((v + 1) / 12) (Nat.div_lt_self (Nat.succ_pos v) (by norm_num)) c hc

/-- The little-endian integer digit loop round-trips through the integer parse
loop of `from_dozenal`. -/
theorem parseIntLE_intToDozenalCore (n : ℕ) :
    parseIntLE (intToDozenalCore n) = some ((n : ℕ) : ℚ) := by
  induction n using Nat.strong_induction_on with
  | _ n ih =>
      cases n with
      | zero => simp [intToDozenalCore, parseIntLE]
      | succ v =>
          have hmod : (v + 1) % 12 < 12 := Nat.mod_lt _ (by norm_num)
          have ihd := ih ((v + 1) / 12) (Nat.div_lt_self (Nat.succ_pos v) (by norm_num))
          simp only [intToDozenalCore, parseIntLE, digitValue_getD _ hmod, ihd,
            Option.bind_eq_bind, Option.some_bind]
          have hsum := Nat.mod_add_div (v + 1) 12
          have : (((v + 1) % 12 : ℕ) : ℚ) + 12 * (((v + 1) / 12 : ℕ) : ℚ) = ((v + 1 : ℕ) : ℚ) := by
            exact_mod_cast hsum
          rw [this]
          rfl

/-- Evaluation of `_int_to_dozenal` on a non-negative non-zero integer. -/
theorem intToDozenal_of_nonneg (n : ℤ) (h0 : 0 ≤ n) (hne : n ≠ 0) :
    intToDozenal n = (intToDozenalCore n.toNat).reverse := by
  rw [intToDozenal, if_neg hne, if_neg (by omega)]
  rw [show n.natAbs = n.toNat by omega]

/-- For a non-negative integer, `_int_to_dozenal` then the integer parse loop of
`from_dozenal` recovers the integer. -/
theorem parseIntLE_intToDozenal (n : ℤ) (h0 : 0 ≤ n) :
    parseIntLE (intToDozenal n).reverse = some ((n : ℤ) : ℚ) := by
  rcases eq_or_ne n 0 with rfl | hne
  · have h0d : digitValue '0' = some 0 := by decide
    simp [intToDozenal, parseIntLE, h0d]
  · rw [intToDozenal_of_nonneg n h0 hne, List.reverse_reverse,
      parseIntLE_intToDozenalCore]
    congr 1
    exact_mod_cast congrArg (fun m : ℤ => ((m : ℤ) : ℚ)) (Int.toNat_of_nonneg h0)

/-- For a non-negative integer, all characters of `_int_to_dozenal` are alphabet
characters. -/
theorem intToDozenal_nonneg_mem (n : ℤ) (h0 : 0 ≤ n) :
    ∀ c ∈ intToDozenal n, c ∈ DOZENAL_DIGITS := by
  rcases eq_or_ne n 0 with rfl | hne
  · intro c hc
    simp [intToDozenal] at hc
    rw [hc]
    decide
  · rw [intToDozenal_of_nonneg n h0 hne]
    intro c hc
    rw [List.mem_reverse] at hc
    exact intToDozenalCore_mem _ c hc

/-- For a non-negative integer, `_int_to_dozenal` is a non-empty string. -/
theorem intToDozenal_nonneg_ne_nil (n : ℤ) (h0 : 0 ≤ n) : intToDozenal n ≠ [] := by
  rcases eq_or_ne n 0 with rfl | hne
  · simp [intToDozenal]
  · rw [intToDozenal_of_nonneg n h0 hne]
    have ht : n.toNat ≠ 0 := by omega
    rcases h : n.toNat with _ | v
    · omega
    · simp [intToDozenalCore]

/-- Splitting a dot-free string on the dot returns the whole string. -/
theorem splitDot_of_no_dot : ∀ s : List Char, ('.' ∉ s) → splitDot s = [s] := by
  intro s
  induction s with
  | nil => intro _; rfl
  | cons c cs ih =>
      intro h
      have hc : ¬ c = '.' := fun e => h (by rw [e]; exact List.mem_cons_self _ _)
      have hcs : '.' ∉ cs := fun hm => h (List.mem_cons_of_mem _ hm)
      simp only [splitDot]
      rw [if_neg hc, ih hcs]

/-- Splitting `a ++ "." ++ b` on the dot, for dot-free `a`, yields `a` followed by
the split of `b`. -/
theorem splitDot_append_dot (a b : List Char) (ha : '.' ∉ a) :
    splitDot (a ++ '.' :: b) = a :: splitDot b := by
  induction a with
  | nil =>
      simp [splitDot]
  | cons c cs ih =>
      have hc : ¬ c = '.' := fun e => ha (by rw [e]; exact List.mem_cons_self _ _)
      have hcs : '.' ∉ cs := fun hm => ha (List.mem_cons_of_mem _ hm)
      simp only [List.cons_append, splitDot, List.append_eq]
      rw [if_neg hc, ih hcs]

/-- The threshold is positive and below the eight-digit quantum `12^-8`. -/
theorem fracEps_pos : (0 : ℚ) < fracEps := by norm_num [fracEps]

/-- Invariant of the fractional digit loop on a positive residual below one: all
emitted characters are alphabet characters, the parse loop of `from_dozenal`
recovers a value `p ≤ v`, and the truncation error is below
`max (12 ^ -fuel) 1e-10`. -/
theorem fracLoop_spec : ∀ (fuel : ℕ) (v : ℚ), 0 < v → v < 1 →
    (∀ c ∈ fracLoop v fuel, c ∈ DOZENAL_DIGITS) ∧
    ∃ p, parseFracDigits (fracLoop v fuel) = some p ∧
      0 ≤ v - p ∧ v - p < max ((1 : ℚ) / 12 ^ fuel) fracEps := by
  intro fuel
  induction fuel with
  | zero =>
      intro v hv0 hv1
      refine ⟨by simp [fracLoop], 0, by simp [fracLoop, parseFracDigits], by linarith, ?_⟩
      have h1 : ((1 : ℚ) / 12 ^ 0) = 1 := by norm_num
      calc v - 0 = v := by ring
        _ < 1 := hv1
        _ = (1 : ℚ) / 12 ^ 0 := h1.symm
        _ ≤ max ((1 : ℚ) / 12 ^ 0) fracEps := le_max_left _ _
  | succ fuel ih =>
      intro v hv0 hv1
      have h12 : (0 : ℚ) < v * 12 := by linarith
      have hlt12 : v * 12 < 12 := by linarith
      have hpy : pyInt (v * 12) = ⌊v * 12⌋ := pyInt_eq_floor _ (le_of_lt h12)
      have hd0 : (0 : ℤ) ≤ ⌊v * 12⌋ := Int.floor_nonneg.mpr (le_of_lt h12)
      have hd12 : ⌊v * 12⌋ < 12 := by
        rw [Int.floor_lt]
        exact_mod_cast hlt12
      have hrest0 : 0 ≤ v * 12 - ((⌊v * 12⌋ : ℤ) : ℚ) := by
        rw [sub_nonneg]
        exact Int.floor_le _
      have hrest1 : v * 12 - ((⌊v * 12⌋ : ℤ) : ℚ) < 1 := by
        have := Int.lt_floor_add_one (v * 12)
        linarith
      have hidx : pyIndex DOZENAL_DIGITS ⌊v * 12⌋ =
          DOZENAL_DIGITS.getD (⌊v * 12⌋).toNat ' ' := by
        rw [pyIndex]
        have hlen : ((DOZENAL_DIGITS.length : ℕ) : ℤ) = 12 := by decide
        rw [hlen]
        congr 1
        omega
      have hdnat : (⌊v * 12⌋).toNat < 12 := by omega
      have hmem : pyIndex DOZENAL_DIGITS ⌊v * 12⌋ ∈ DOZENAL_DIGITS := by
        rw [hidx]
        exact getD_mem_DOZENAL _ hdnat
      have hdig : digitValue (pyIndex DOZENAL_DIGITS ⌊v * 12⌋) = some (⌊v * 12⌋).toNat := by
        rw [hidx]
        exact digitValue_getD _ hdnat
      have hcast : (((⌊v * 12⌋).toNat : ℕ) : ℚ) = ((⌊v * 12⌋ : ℤ) : ℚ) := by
        exact_mod_cast Int.toNat_of_nonneg hd0
      by_cases hbr : v * 12 - (pyInt (v * 12) : ℚ) < fracEps
      · have hloop : fracLoop v (fuel + 1) = [pyIndex DOZENAL_DIGITS ⌊v * 12⌋] := by
          simp only [fracLoop]
          rw [if_pos hbr, hpy]
        refine ⟨?_, ((⌊v * 12⌋ : ℤ) : ℚ) / 12, ?_, ?_, ?_⟩
        · intro c hc
          rw [hloop, List.mem_singleton] at hc
          rw [hc]
          exact hmem
        · rw [hloop]
          simp only [parseFracDigits, hdig, Option.bind_eq_bind, Option.some_bind]
          rw [hcast]
          norm_num
        · have heq : v - ((⌊v * 12⌋ : ℤ) : ℚ) / 12 =
              (v * 12 - ((⌊v * 12⌋ : ℤ) : ℚ)) / 12 := by ring
          rw [heq]
          exact div_nonneg hrest0 (by norm_num)
        · rw [hpy] at hbr
          have heq : v - ((⌊v * 12⌋ : ℤ) : ℚ) / 12 =
              (v * 12 - ((⌊v * 12⌋ : ℤ) : ℚ)) / 12 := by ring
          rw [heq]
          calc (v * 12 - ((⌊v * 12⌋ : ℤ) : ℚ)) / 12 < fracEps / 12 := by linarith
            _ ≤ fracEps := by norm_num [fracEps]
            _ ≤ max ((1 : ℚ) / 12 ^ (fuel + 1)) fracEps := le_max_right _ _
      · rw [hpy] at hbr
        have hrpos : 0 < v * 12 - ((⌊v * 12⌋ : ℤ) : ℚ) := by
          have := fracEps_pos
          linarith [not_lt.mp hbr]
        obtain ⟨hmem2, p2, hp2, hp20, hp21⟩ :=
          ih (v * 12 - ((⌊v * 12⌋ : ℤ) : ℚ)) hrpos hrest1
        have hloop : fracLoop v (fuel + 1) = pyIndex DOZENAL_DIGITS ⌊v * 12⌋ ::
            fracLoop (v * 12 - ((⌊v * 12⌋ : ℤ) : ℚ)) fuel := by
          simp only [fracLoop]
          rw [hpy]
          rw [if_neg hbr]
        refine ⟨?_, (((⌊v * 12⌋ : ℤ) : ℚ) + p2) / 12, ?_, ?_, ?_⟩
        · intro c hc
          rw [hloop, List.mem_cons] at hc
          rcases hc with hc | hc
          · rw [hc]
            exact hmem
          · exact hmem2 c hc
        · rw [hloop]
          simp only [parseFracDigits, hdig, hp2, Option.bind_eq_bind, Option.some_bind]
          rw [hcast]
          rfl
        · have heq : v - (((⌊v * 12⌋ : ℤ) : ℚ) + p2) / 12 =
              (v * 12 - ((⌊v * 12⌋ : ℤ) : ℚ) - p2) / 12 := by ring
          rw [heq]
          exact div_nonneg hp20 (by norm_num)
        · have heq : v - (((⌊v * 12⌋ : ℤ) : ℚ) + p2) / 12 =
              (v * 12 - ((⌊v * 12⌋ : ℤ) : ℚ) - p2) / 12 := by ring
          rw [heq]
          have hstep : max ((1 : ℚ) / 12 ^ fuel) fracEps / 12 ≤
              max ((1 : ℚ) / 12 ^ (fuel + 1)) fracEps := by
            rcases le_total ((1 : ℚ) / 12 ^ fuel) fracEps with h | h
            · rw [max_eq_right h]
              calc fracEps / 12 ≤ fracEps := by norm_num [fracEps]
                _ ≤ max ((1 : ℚ) / 12 ^ (fuel + 1)) fracEps := le_max_right _ _
            · rw [max_eq_left h]
              have h2 : ((1 : ℚ) / 12 ^ fuel) / 12 = (1 : ℚ) / 12 ^ (fuel + 1) := by
                rw [pow_succ]
                ring
              rw [h2]
              exact le_max_left _ _
          calc (v * 12 - ((⌊v * 12⌋ : ℤ) : ℚ) - p2) / 12
              < max ((1 : ℚ) / 12 ^ fuel) fracEps / 12 := by linarith
            _ ≤ max ((1 : ℚ) / 12 ^ (fuel + 1)) fracEps := hstep

/-- One unfolding of the fractional digit loop in the early-break case. -/
theorem fracLoop_succ_break (v : ℚ) (fuel : ℕ)
    (h : v * 12 - (pyInt (v * 12) : ℚ) < fracEps) :
    fracLoop v (fuel + 1) = [pyIndex DOZENAL_DIGITS (pyInt (v * 12))] := by
  simp only [fracLoop]
  rw [if_pos h]

/-- Parsing a pure integer dozenal string produced from a non-negative integer. -/
theorem fromDozenal_int_only (n : ℤ) (h0 : 0 ≤ n) :
    fromDozenal (intToDozenal n) = some ((n : ℤ) : ℚ) := by
  have hne := intToDozenal_nonneg_ne_nil n h0
  have hmem := intToDozenal_nonneg_mem n h0
  have hp := parseIntLE_intToDozenal n h0
  rcases hl : intToDozenal n with _ | ⟨c, t⟩
  · exact absurd hl hne
  · rw [hl] at hmem hp
    have hcne := (mem_DOZENAL_ne c (hmem c (List.mem_cons_self _ _))).2
    have hnd : '.' ∉ (c :: t) := fun hdot =>
      (mem_DOZENAL_ne '.' (hmem '.' hdot)).1 rfl
    rw [fromDozenal, if_neg (by simp [hcne])]
    simp only [fromDozenalCore, splitDot_of_no_dot _ hnd, List.headD_cons,
      List.drop_succ_cons, List.drop_zero, List.headD_nil]
    simp only [hp, parseFracDigits, Option.bind_eq_bind, Option.some_bind]
    norm_num

/-- Parsing a dozenal string with integer part from a non-negative integer and an
explicit fractional digit block. -/
theorem fromDozenal_int_frac (n : ℤ) (h0 : 0 ≤ n) (frac : List Char)
    (hfm : ∀ c ∈ frac, c ∈ DOZENAL_DIGITS) (p : ℚ)
    (hp : parseFracDigits frac = some p) :
    fromDozenal (intToDozenal n ++ '.' :: frac) = some (((n : ℤ) : ℚ) + p) := by
  have hne := intToDozenal_nonneg_ne_nil n h0
  have hmem := intToDozenal_nonneg_mem n h0
  have hpi := parseIntLE_intToDozenal n h0
  have hndi : '.' ∉ intToDozenal n := fun hdot =>
    (mem_DOZENAL_ne '.' (hmem '.' hdot)).1 rfl
  have hndf : '.' ∉ frac := fun hdot =>
    (mem_DOZENAL_ne '.' (hfm '.' hdot)).1 rfl
  have hsplit : splitDot (intToDozenal n ++ '.' :: frac) =
      intToDozenal n :: [frac] := by
    rw [splitDot_append_dot _ _ hndi, splitDot_of_no_dot _ hndf]
  rcases hl : intToDozenal n with _ | ⟨c, t⟩
  · exact absurd hl hne
  · rw [hl] at hmem hpi hsplit
    have hcne := (mem_DOZENAL_ne c (hmem c (List.mem_cons_self _ _))).2
    rw [List.cons_append]
    rw [fromDozenal, if_neg (by simp [hcne])]
    rw [← List.cons_append]
    simp only [fromDozenalCore, hsplit, List.headD_cons,
      List.drop_succ_cons, List.drop_zero]
    simp only [hpi, hp, Option.bind_eq_bind, Option.some_bind]
    rfl

/-- C3 (amended part): for every non-negative value, `from_dozenal` of
`to_dozenal` recovers the value to within the eight-digit dozenal truncation
error `12^-8`. -/
theorem c3_roundtrip_nonneg (v : ℚ) (h0 : 0 ≤ v) :
    ∃ w, fromDozenal (toDozenal v) = some w ∧ |w - v| < 1 / 12 ^ 8 := by
  rcases eq_or_ne v 0 with rfl | hv
  · refine ⟨0, ?_, by norm_num⟩
    rw [toDozenal, if_pos rfl]
    have h00 : intToDozenal 0 = ['0'] := by rw [intToDozenal, if_pos rfl]
    have := fromDozenal_int_only 0 (le_refl 0)
    rw [h00] at this
    rw [this]
    norm_num
  · have hvpos : 0 < v := lt_of_le_of_ne h0 (Ne.symm hv)
    have hpy : pyInt v = ⌊v⌋ := pyInt_eq_floor v h0
    have hfl0 : (0 : ℤ) ≤ ⌊v⌋ := Int.floor_nonneg.mpr h0
    have hf0 : 0 ≤ v - ((⌊v⌋ : ℤ) : ℚ) := by
      rw [sub_nonneg]
      exact Int.floor_le v
    have hf1 : v - ((⌊v⌋ : ℤ) : ℚ) < 1 := by
      have := Int.lt_floor_add_one v
      linarith
    rw [toDozenal, if_neg hv, hpy]
    by_cases hfz : v - ((⌊v⌋ : ℤ) : ℚ) = 0
    · rw [hfz]
      have hemp : fracToDozenal 0 8 = [] := by rw [fracToDozenal, if_pos rfl]
      rw [hemp, if_neg (by simp)]
      refine ⟨((⌊v⌋ : ℤ) : ℚ), fromDozenal_int_only ⌊v⌋ hfl0, ?_⟩
      have hveq : v = ((⌊v⌋ : ℤ) : ℚ) := by linarith
      rw [← hveq]
      norm_num
    · have hfpos : 0 < v - ((⌊v⌋ : ℤ) : ℚ) := lt_of_le_of_ne hf0 (Ne.symm hfz)
      obtain ⟨hmemf, p, hp, hp0, hp1⟩ := fracLoop_spec 8 _ hfpos hf1
      have hfr : fracToDozenal (v - ((⌊v⌋ : ℤ) : ℚ)) 8 =
          fracLoop (v - ((⌊v⌋ : ℤ) : ℚ)) 8 := by
        rw [fracToDozenal, if_neg hfz]
      rw [hfr]
      have hloopne : fracLoop (v - ((⌊v⌋ : ℤ) : ℚ)) 8 ≠ [] := by
        simp only [fracLoop]
        split
        · simp
        · simp
      rw [if_pos hloopne]
      refine ⟨((⌊v⌋ : ℤ) : ℚ) + p, fromDozenal_int_frac ⌊v⌋ hfl0 _ hmemf p hp, ?_⟩
      have hmax : max ((1 : ℚ) / 12 ^ 8) fracEps = (1 : ℚ) / 12 ^ 8 := by
        rw [max_eq_left]
        norm_num [fracEps]
      rw [hmax] at hp1
      rw [abs_sub_comm, abs_of_nonneg (by linarith)]
      linarith

/-- C3 counterexample: the round-trip bound fails for the negative value `-5/4`.
The fractional residual is negative, so `int(value)` is a negative Python index
into the digit alphabet: the digit `-3` is rendered as the character `'9'` and
the loop then terminates, producing `-1.9` dozenal, which parses back to `-7/4`,
half a unit away from `-5/4`. -/
theorem c3_counterexample_neg :
    toDozenal (-5 / 4) = ['-', '1', '.', '9'] ∧
    fromDozenal (toDozenal (-5 / 4)) = some (-(7 / 4)) ∧
    ¬ |(-(7 / 4) : ℚ) - (-5 / 4)| < 1 / 12 ^ 8 := by
  have h1 : pyInt (-5 / 4 : ℚ) = -1 := by
    rw [pyInt, if_pos (by norm_num : (-5 / 4 : ℚ) < 0), Int.ceil_eq_iff]
    constructor
    · push_cast
      norm_num
    · push_cast
      norm_num
  have hto : toDozenal (-5 / 4) = ['-', '1', '.', '9'] := by
    rw [toDozenal, if_neg (by norm_num), h1]
    have harg : (-5 / 4 : ℚ) - ((-1 : ℤ) : ℚ) = -(1 / 4) := by
      push_cast
      norm_num
    rw [harg]
    have h2 : pyInt ((-(1 / 4) : ℚ) * 12) = -3 := by
      have harg2 : ((-(1 / 4) : ℚ) * 12) = ((-3 : ℤ) : ℚ) := by norm_num
      rw [harg2, pyInt_intCast]
    have hF : fracToDozenal (-(1 / 4)) 8 = ['9'] := by
      rw [fracToDozenal, if_neg (by norm_num)]
      rw [show (8 : ℕ) = 7 + 1 from rfl]
      rw [fracLoop_succ_break _ _ (by rw [h2]; norm_num [fracEps])]
      rw [h2]
      decide
    rw [hF]
    have hI : intToDozenal (-1) = ['-', '1'] := by
      norm_num [intToDozenal, intToDozenalCore, DOZENAL_DIGITS]
    rw [if_pos (by simp), hI]
    rfl
  have hfrom : fromDozenal ['-', '1', '.', '9'] = some (-(7 / 4)) := by
    have hd1 : digitValue '1' = some 1 := by decide
    have hd9 : digitValue '9' = some 9 := by decide
    norm_num [fromDozenal, fromDozenalCore, splitDot, parseIntLE,
      parseFracDigits, hd1, hd9]
  refine ⟨hto, ?_, ?_⟩
  · rw [hto]
    exact hfrom
  · rw [show (-(7 / 4) : ℚ) - (-5 / 4) = -(1 / 2) by norm_num, abs_neg,
      abs_of_nonneg (by norm_num : (0 : ℚ) ≤ 1 / 2)]
    norm_num

/-- C3 witness: the round-trip bound at the concrete value `3/2`. -/
theorem c3_roundtrip_nonneg_witness :
    (0 : ℚ) ≤ 3 / 2 ∧
    ∃ w, fromDozenal (toDozenal (3 / 2)) = some w ∧ |w - 3 / 2| < 1 / 12 ^ 8 :=
  ⟨by norm_num, c3_roundtrip_nonneg (3 / 2) (by norm_num)⟩

/-! ### Base selector (`multi_base_optimizer.BaseSystem`,
`MultiBaseCalculator.optimal_base_for_value`) -/

/-- The `BaseSystem` enumeration (`BINARY = 2`, `DECIMAL = 10`, `DOZENAL = 12`). -/
inductive BaseSystem
  | BINARY
  | DECIMAL
  | DOZENAL
deriving DecidableEq

/-- The numeric value of each `BaseSystem` member. -/
def BaseSystem.value : BaseSystem → ℕ
  | .BINARY => 2
  | .DECIMAL => 10
  | .DOZENAL => 12

/-- Embedding of `MultiBaseCalculator.optimal_base_for_value`. The Python
`cents = int(abs(value) * 100)` is non-negative, so it is taken into `ℕ`
(`.toNat` is lossless here); its bitwise test then uses `Nat` bitwise and. -/
def optimal_base_for_value (value : ℚ) : BaseSystem :=
  let cents : ℕ := (pyInt (|value| * 100)).toNat
  if cents = 0 then BaseSystem.DECIMAL
  else if cents > 0 ∧ cents &&& (cents - 1) = 0 then BaseSystem.BINARY
  else if cents % 12 = 0 ∨ cents % 6 = 0 ∨ cents % 4 = 0 then BaseSystem.DOZENAL
  else if cents % 10 = 0 then BaseSystem.DECIMAL
  else if 2 ≤ (if cents % 2 = 0 then 1 else 0) + (if cents % 3 = 0 then 1 else 0) +
      (if cents % 4 = 0 then 1 else 0) + (if cents % 6 = 0 then 1 else 0) then
    BaseSystem.DOZENAL
  else BaseSystem.DECIMAL

/-- The base-selection rule exactly as the claim words it: first match wins over
`cents = ⌊|value| * 100⌋`, with the power-of-two bit test unguarded (rule 1 has
already excluded `cents = 0`). -/
def optimalBaseClaim (value : ℚ) : BaseSystem :=
  let cents : ℕ := ⌊|value| * 100⌋.toNat
  if cents = 0 then BaseSystem.DECIMAL
  else if cents &&& (cents - 1) = 0 then BaseSystem.BINARY
  else if cents % 12 = 0 ∨ cents % 6 = 0 ∨ cents % 4 = 0 then BaseSystem.DOZENAL
  else if cents % 10 = 0 then BaseSystem.DECIMAL
  else if 2 ≤ (if cents % 2 = 0 then 1 else 0) + (if cents % 3 = 0 then 1 else 0) +
      (if cents % 4 = 0 then 1 else 0) + (if cents % 6 = 0 then 1 else 0) then
    BaseSystem.DOZENAL
  else BaseSystem.DECIMAL

/-- C4: the selector implements exactly the claimed first-match-wins rule
sequence, and the claim's three examples classify as stated
(`0 ↦ Decimal`, `2.56 ↦ Binary`, `1.20 ↦ Dozenal`). -/
theorem c4_optimal_base_first_match :
    (∀ value : ℚ, optimal_base_for_value value = optimalBaseClaim value) ∧
    optimal_base_for_value 0 = BaseSystem.DECIMAL ∧
    optimal_base_for_value (64 / 25) = BaseSystem.BINARY ∧
    optimal_base_for_value (6 / 5) = BaseSystem.DOZENAL := by
  have hgen : ∀ value : ℚ, optimal_base_for_value value = optimalBaseClaim value := by
    intro value
    simp only [optimal_base_for_value, optimalBaseClaim,
      pyInt_eq_floor _ (by positivity : (0 : ℚ) ≤ |value| * 100)]
    by_cases h0 : (⌊|value| * 100⌋.toNat) = 0
    · rw [if_pos h0, if_pos h0]
    · rw [if_neg h0, if_neg h0]
      have hiff : (⌊|value| * 100⌋.toNat > 0 ∧
          ⌊|value| * 100⌋.toNat &&& (⌊|value| * 100⌋.toNat - 1) = 0) ↔
          ⌊|value| * 100⌋.toNat &&& (⌊|value| * 100⌋.toNat - 1) = 0 :=
        ⟨And.right, fun h => ⟨Nat.pos_of_ne_zero h0, h⟩⟩
      simp only [hiff]
  refine ⟨hgen, ?_, ?_, ?_⟩
  · have harg : (|(0 : ℚ)| * 100) = ((0 : ℤ) : ℚ) := by norm_num
    simp only [optimal_base_for_value, harg, pyInt_intCast]
    decide
  · have harg : (|(64 / 25 : ℚ)| * 100) = ((256 : ℤ) : ℚ) := by
      rw [abs_of_nonneg (by norm_num : (0 : ℚ) ≤ 64 / 25)]
      norm_num
    simp only [optimal_base_for_value, harg, pyInt_intCast]
    decide
  · have harg : (|(6 / 5 : ℚ)| * 100) = ((120 : ℤ) : ℚ) := by
      rw [abs_of_nonneg (by norm_num : (0 : ℚ) ≤ 6 / 5)]
      norm_num
    simp only [optimal_base_for_value, harg, pyInt_intCast]
    decide

/-- C5 counterexample: `optimal_base_for_value(1.00)` is not Decimal. -/
theorem c5_counterexample_one :
    optimal_base_for_value 1 ≠ BaseSystem.DECIMAL := by
  have harg : (|(1 : ℚ)| * 100) = ((100 : ℤ) : ℚ) := by norm_num
  simp only [optimal_base_for_value, harg, pyInt_intCast]
  decide

/-- C5 (amended): `optimal_base_for_value(1.00)` returns Dozenal: `cents = 100`
fails the power-of-two test but is divisible by 4, so the base-12 divisibility
rule fires before the `% 10` rule is ever reached. -/
theorem c5_one_is_dozenal :
    optimal_base_for_value 1 = BaseSystem.DOZENAL ∧
    (100 : ℕ) &&& 99 ≠ 0 ∧ (100 : ℕ) % 12 ≠ 0 ∧ (100 : ℕ) % 6 ≠ 0 ∧
    (100 : ℕ) % 4 = 0 ∧ (100 : ℕ) % 10 = 0 := by
  have harg : (|(1 : ℚ)| * 100) = ((100 : ℤ) : ℚ) := by norm_num
  refine ⟨?_, by decide, by decide, by decide, by decide, by decide⟩
  simp only [optimal_base_for_value, harg, pyInt_intCast]
  decide

/-! ### HFT optimizer (`multi_base_optimizer.HFTOptimizer`) -/

/-- The result dictionary built by the `_optimize_dozenal` / `_optimize_binary` /
`_optimize_decimal` helpers. The two dozenal strings are present only on the
dozenal path, hence `Option`. -/
structure InnerResult where
  entry_price : ℚ
  exit_price : ℚ
  entry_offset : ℚ
  exit_offset : ℚ
  cycles_saved : ℕ
  dozenal_mid : Option (List Char)
  dozenal_spread : Option (List Char)

/-- The `performance_stats` counter dictionary of `HFTOptimizer`. -/
structure PerfStats where
  base12_operations : ℕ
  base10_operations : ℕ
  base2_operations : ℕ
  total_savings_cycles : ℕ

/-- Builds the result dictionary shared by the three `_optimize_*` helpers:
`entry_price = mid + entry_offset` and `exit_price = mid + exit_offset`. -/
def mkInnerResult (mid_price entry_offset exit_offset : ℚ) (cycles_saved : ℕ)
    (dozenal_mid dozenal_spread : Option (List Char)) : InnerResult :=
  { entry_price := mid_price + entry_offset
    exit_price := mid_price + exit_offset
    entry_offset := entry_offset
    exit_offset := exit_offset
    cycles_saved := cycles_saved
    dozenal_mid := dozenal_mid
    dozenal_spread := dozenal_spread }

/-- Embedding of `HFTOptimizer._optimize_dozenal`: the strategy branch picks the
entry/exit offsets as fractions of the spread; `cycles_saved = 15`. -/
def _optimize_dozenal (bid ask last spread : ℚ) (strategy : String) : InnerResult :=
  if strategy = "market_making" then
    mkInnerResult ((bid + ask) / 2) (spread / 12) (spread * 11 / 12) 15
      (some (toDozenal ((bid + ask) / 2))) (some (toDozenal spread))
  else if strategy = "mean_reversion" then
    mkInnerResult ((bid + ask) / 2) (spread / 4) (spread / 2) 15
      (some (toDozenal ((bid + ask) / 2))) (some (toDozenal spread))
  else
    mkInnerResult ((bid + ask) / 2) (spread / 6) (spread / 3) 15
      (some (toDozenal ((bid + ask) / 2))) (some (toDozenal spread))

/-- Embedding of `HFTOptimizer._optimize_binary`; `cycles_saved = 20`. -/
def _optimize_binary (bid ask last spread : ℚ) (strategy : String) : InnerResult :=
  if strategy = "market_making" then
    mkInnerResult ((bid + ask) / 2) (spread / 8) (spread * 7 / 8) 20 none none
  else if strategy = "momentum" then
    mkInnerResult ((bid + ask) / 2) (spread / 16) (spread / 4) 20 none none
  else
    mkInnerResult ((bid + ask) / 2) (spread / 4) (spread / 2) 20 none none

/-- Embedding of `HFTOptimizer._optimize_decimal`; `cycles_saved = 0`. -/
def _optimize_decimal (bid ask last spread : ℚ) (strategy : String) : InnerResult :=
  if strategy = "market_making" then
    mkInnerResult ((bid + ask) / 2) (spread * 0.1) (spread * 0.9) 0 none none
  else if strategy = "arbitrage" then
    mkInnerResult ((bid + ask) / 2) (spread * 0.05) (spread * 0.95) 0 none none
  else
    mkInnerResult ((bid + ask) / 2) (spread * 0.2) (spread * 0.8) 0 none none

/-- The `.name` attribute of a Python `BaseSystem` member. -/
def BaseSystem.name : BaseSystem → String
  | .BINARY => "BINARY"
  | .DECIMAL => "DECIMAL"
  | .DOZENAL => "DOZENAL"

/-- The dictionary returned by `HFTOptimizer.optimize_price_levels`: the inner
result augmented with `base_used`, `mid_price` and `spread`. -/
structure PriceLevels where
  result : InnerResult
  base_used : String
  mid_price : ℚ
  spread : ℚ

/-- Embedding of `HFTOptimizer.optimize_price_levels`, with the mutation of
`self.performance_stats` made explicit by state passing. -/
def optimize_price_levels (stats : PerfStats) (bid ask last : ℚ)
    (strategy : String) : PriceLevels × PerfStats :=
  let mid_price := (bid + ask) / 2
  let spread := ask - bid
  let base := optimal_base_for_value mid_price
  let pair : InnerResult × PerfStats :=
    if base = BaseSystem.DOZENAL then
      (_optimize_dozenal bid ask last spread strategy,
        { stats with base12_operations := stats.base12_operations + 1 })
    else if base = BaseSystem.BINARY then
      (_optimize_binary bid ask last spread strategy,
        { stats with base2_operations := stats.base2_operations + 1 })
    else
      (_optimize_decimal bid ask last spread strategy,
        { stats with base10_operations := stats.base10_operations + 1 })
  ({ result := pair.1
     base_used := base.name
     mid_price := mid_price
     spread := spread }, pair.2)

/-- The claim's entry-fraction table, keyed by base and strategy (the strategy
identifiers are the strings used by the code: MarketMaking = "market_making",
MeanReversion = "mean_reversion", Momentum = "momentum",
Arbitrage = "arbitrage"). -/
def entryFracClaim : BaseSystem → String → ℚ
  | .DOZENAL, s =>
      if s = "market_making" then 1 / 12
      else if s = "mean_reversion" then 1 / 4 else 1 / 6
  | .BINARY, s =>
      if s = "market_making" then 1 / 8
      else if s = "momentum" then 1 / 16 else 1 / 4
  | .DECIMAL, s =>
      if s = "market_making" then 0.1
      else if s = "arbitrage" then 0.05 else 0.2

/-- The claim's exit-fraction table. -/
def exitFracClaim : BaseSystem → String → ℚ
  | .DOZENAL, s =>
      if s = "market_making" then 11 / 12
      else if s = "mean_reversion" then 1 / 2 else 1 / 3
  | .BINARY, s =>
      if s = "market_making" then 7 / 8
      else if s = "momentum" then 1 / 4 else 1 / 2
  | .DECIMAL, s =>
      if s = "market_making" then 0.9
      else if s = "arbitrage" then 0.95 else 0.8

/-- The claim's static `cycles_saved` cost model per base. -/
def cyclesSavedClaim : BaseSystem → ℕ
  | .DOZENAL => 15
  | .BINARY => 20
  | .DECIMAL => 0

/-- C6: `optimize_price_levels` returns offsets equal to the spread times the
claimed `(base, strategy)` table fractions, prices equal to mid plus the
offsets, and the claimed per-base `cycles_saved` constant. -/
theorem c6_price_levels_table (stats : PerfStats) (bid ask last : ℚ)
    (strategy : String) :
    (optimize_price_levels stats bid ask last strategy).1.result.entry_offset =
      (ask - bid) * entryFracClaim (optimal_base_for_value ((bid + ask) / 2)) strategy ∧
    (optimize_price_levels stats bid ask last strategy).1.result.exit_offset =
      (ask - bid) * exitFracClaim (optimal_base_for_value ((bid + ask) / 2)) strategy ∧
    (optimize_price_levels stats bid ask last strategy).1.result.entry_price =
      (bid + ask) / 2 +
        (optimize_price_levels stats bid ask last strategy).1.result.entry_offset ∧
    (optimize_price_levels stats bid ask last strategy).1.result.exit_price =
      (bid + ask) / 2 +
        (optimize_price_levels stats bid ask last strategy).1.result.exit_offset ∧
    (optimize_price_levels stats bid ask last strategy).1.result.cycles_saved =
      cyclesSavedClaim (optimal_base_for_value ((bid + ask) / 2)) := by
  simp only [optimize_price_levels]
  cases hb : optimal_base_for_value ((bid + ask) / 2) with
  | DOZENAL =>
      rw [if_pos rfl]
      simp only [_optimize_dozenal, entryFracClaim, exitFracClaim, cyclesSavedClaim,
        mkInnerResult]
      split_ifs <;> dsimp only <;> refine ⟨by ring, by ring, by ring, by ring, rfl⟩
  | BINARY =>
      rw [if_neg (by decide), if_pos rfl]
      simp only [_optimize_binary, entryFracClaim, exitFracClaim, cyclesSavedClaim,
        mkInnerResult]
      split_ifs <;> dsimp only <;> refine ⟨by ring, by ring, by ring, by ring, rfl⟩
  | DECIMAL =>
      rw [if_neg (by decide), if_neg (by decide)]
      simp only [_optimize_decimal, entryFracClaim, exitFracClaim, cyclesSavedClaim,
        mkInnerResult]
      split_ifs <;> dsimp only <;> refine ⟨by norm_num, by norm_num, by ring, by ring, rfl⟩

/-! ### Slippage estimation (`HFTOptimizer.estimate_slippage`) -/

/-- Embedding of `HFTOptimizer.estimate_slippage`. The Python float power
`depth_ratio ** 1.5` is a real power, so this definition lives in `ℝ`;
`quantity` and `market_depth` are the Python non-negative ints of the call
sites. -/
noncomputable def estimate_slippage (quantity : ℕ) (spread : ℝ)
    (market_depth : ℕ) : ℝ :=
  if market_depth = 0 then spread * 0.5
  else
    min (spread * 0.25 * (1 + ((quantity : ℝ) / (market_depth : ℝ)) ^ (1.5 : ℝ)))
      spread

/-- C9: `estimate_slippage` returns `spread * 0.5` for zero depth, otherwise the
capped baseline formula, never exceeds a non-negative spread, and evaluates to
`0.5` at `(0, 1.0, 0)`. -/
theorem c9_estimate_slippage (quantity market_depth : ℕ) (spread : ℝ)
    (h : 0 ≤ spread) :
    (market_depth = 0 →
      estimate_slippage quantity spread market_depth = spread * 0.5) ∧
    (market_depth ≠ 0 →
      estimate_slippage quantity spread market_depth =
        min (spread * 0.25 * (1 + ((quantity : ℝ) / (market_depth : ℝ)) ^ (1.5 : ℝ)))
          spread) ∧
    estimate_slippage quantity spread market_depth ≤ spread ∧
    estimate_slippage 0 1 0 = 0.5 := by
  refine ⟨?_, ?_, ?_, ?_⟩
  · intro h0
    rw [estimate_slippage, if_pos h0]
  · intro h0
    rw [estimate_slippage, if_neg h0]
  · rw [estimate_slippage]
    split
    · linarith
    · exact min_le_right _ _
  · rw [estimate_slippage, if_pos rfl]
    norm_num

/-- C9 witness: the theorem applied at quantity 0, spread 1, depth 0. -/
theorem c9_estimate_slippage_witness :
    (0 : ℝ) ≤ 1 ∧ estimate_slippage 0 1 0 ≤ 1 ∧ estimate_slippage 0 1 0 = 0.5 :=
  ⟨by norm_num, (c9_estimate_slippage 0 0 1 (by norm_num)).2.2.1,
    (c9_estimate_slippage 0 0 1 (by norm_num)).2.2.2⟩

/-! ### Performance statistics (`HFTOptimizer.get_performance_stats`) -/

/-- The raw `performance_stats` dictionary, as an association list in key
insertion order (values as rationals so they can sit beside percentages). -/
def statsDict (stats : PerfStats) : List (String × ℚ) :=
  [("base12_operations", (stats.base12_operations : ℚ)),
   ("base10_operations", (stats.base10_operations : ℚ)),
   ("base2_operations", (stats.base2_operations : ℚ)),
   ("total_savings_cycles", (stats.total_savings_cycles : ℚ))]

/-- Embedding of `HFTOptimizer.get_performance_stats`: the raw counters when the
total is zero, otherwise the counters plus the total and the three per-base
percentages (Python `{**stats, ...}` preserves insertion order). -/
def get_performance_stats (stats : PerfStats) : List (String × ℚ) :=
  if stats.base12_operations + stats.base10_operations + stats.base2_operations
      = 0 then
    statsDict stats
  else
    statsDict stats ++
      [("total_operations",
        ((stats.base12_operations + stats.base10_operations +
          stats.base2_operations : ℕ) : ℚ)),
       ("base12_percentage",
        100 * (stats.base12_operations : ℚ) /
          ((stats.base12_operations + stats.base10_operations +
            stats.base2_operations : ℕ) : ℚ)),
       ("base10_percentage",
        100 * (stats.base10_operations : ℚ) /
          ((stats.base12_operations + stats.base10_operations +
            stats.base2_operations : ℕ) : ℚ)),
       ("base2_percentage",
        100 * (stats.base2_operations : ℚ) /
          ((stats.base12_operations + stats.base10_operations +
            stats.base2_operations : ℕ) : ℚ))]

/-- C10: `get_performance_stats` never divides by zero: with all counters zero it
returns the raw four-field record (no percentage fields), and with a positive
total it adds `total_operations` and three percentages that sum to 100. -/
theorem c10_performance_stats (stats : PerfStats) :
    (stats.base12_operations = 0 ∧ stats.base10_operations = 0 ∧
      stats.base2_operations = 0 →
      get_performance_stats stats = statsDict stats ∧
      (get_performance_stats stats).map Prod.fst =
        ["base12_operations", "base10_operations", "base2_operations",
         "total_savings_cycles"]) ∧
    (0 < stats.base12_operations + stats.base10_operations +
        stats.base2_operations →
      (get_performance_stats stats).map Prod.fst =
        ["base12_operations", "base10_operations", "base2_operations",
         "total_savings_cycles", "total_operations", "base12_percentage",
         "base10_percentage", "base2_percentage"] ∧
      100 * (stats.base12_operations : ℚ) /
          ((stats.base12_operations + stats.base10_operations +
            stats.base2_operations : ℕ) : ℚ) +
        100 * (stats.base10_operations : ℚ) /
          ((stats.base12_operations + stats.base10_operations +
            stats.base2_operations : ℕ) : ℚ) +
        100 * (stats.base2_operations : ℚ) /
          ((stats.base12_operations + stats.base10_operations +
            stats.base2_operations : ℕ) : ℚ) = 100) := by
  constructor
  · rintro ⟨h12, h10, h2⟩
    have hz : stats.base12_operations + stats.base10_operations +
        stats.base2_operations = 0 := by omega
    rw [get_performance_stats, if_pos hz]
    exact ⟨rfl, rfl⟩
  · intro hpos
    have hz : ¬ (stats.base12_operations + stats.base10_operations +
        stats.base2_operations = 0) := by omega
    rw [get_performance_stats, if_neg hz]
    refine ⟨rfl, ?_⟩
    have htot : (((stats.base12_operations + stats.base10_operations +
        stats.base2_operations : ℕ) : ℚ)) ≠ 0 := by
      exact_mod_cast hz
    push_cast at htot ⊢
    rw [div_add_div_same, div_add_div_same, div_eq_iff htot]
    ring

/-- C10 witness: the positive-total branch at one base-12 operation. -/
theorem c10_performance_stats_witness :
    (0 : ℕ) < 1 + 0 + 0 ∧
    (get_performance_stats ⟨1, 0, 0, 5⟩).map Prod.fst =
      ["base12_operations", "base10_operations", "base2_operations",
       "total_savings_cycles", "total_operations", "base12_percentage",
       "base10_percentage", "base2_percentage"] :=
  ⟨by norm_num, ((c10_performance_stats ⟨1, 0, 0, 5⟩).2 (by norm_num)).1⟩

/-! ### Register protocol driver (`pynq_optimizer_driver.MultiBaseOptimizer`)

The result dictionaries of `optimize` and `_simulate_optimization` are embedded
as association lists in key insertion order; the heterogeneous Python values
live in `PyVal`. Hardware register reads are modelled by a function from the
register offset to the 32-bit word, and the successive status polls by a
function from the poll index to the status word. -/

/-- A Python value stored in a result dictionary. -/
inductive PyVal
  | pyBool (b : Bool)
  | pyInt (z : ℤ)
  | pyRat (q : ℚ)
  | pyStr (s : String)
deriving DecidableEq

/-- The polling loop of `optimize`: up to `polls` iterations fit in the
`timeout_ms` budget; the loop returns the first status word with completion
bit 0 set, or `none` when the budget runs out first. -/
def pollStatus (statuses : ℕ → ℕ) : ℕ → ℕ → Option ℕ
  | 0, _ => none
  | polls + 1, i =>
      if statuses i &&& 0x01 ≠ 0 then some (statuses i)
      else pollStatus statuses polls (i + 1)

/-- The dictionary `optimize` returns on timeout: only the error string and the
failure flag, no result payload. -/
def timeoutResult : List (String × PyVal) :=
  [("error", .pyStr "Optimization timeout"), ("success", .pyBool false)]

/-- The `base_names.get(base_used, "Unknown")` lookup of `optimize`. -/
def baseName (n : ℕ) : String :=
  if n = 0 then "Binary"
  else if n = 1 then "Decimal"
  else if n = 2 then "Dozenal"
  else "Unknown"

/-- The success dictionary of the hardware path of `optimize`: result registers
are decoded, `confidence` is scaled by `1/100`, and the trade signal is status
bit 16. -/
def hwSuccessResult (status : ℕ) (regs : ℕ → ℕ) (bid_price ask_price : ℚ)
    (latency_us : ℚ) : List (String × PyVal) :=
  [("success", .pyBool true),
   ("entry_price", .pyRat (decodePrice (regs 0x038) (regs 0x03C))),
   ("exit_price", .pyRat (decodePrice (regs 0x040) (regs 0x044))),
   ("quantity", .pyInt (regs 0x048)),
   ("expected_profit", .pyInt (regs 0x04C)),
   ("confidence", .pyRat ((regs 0x050 : ℚ) / 100)),
   ("base_used", .pyStr (baseName (regs 0x054))),
   ("base_used_id", .pyInt (regs 0x054)),
   ("cycles_taken", .pyInt (regs 0x058)),
   ("base12_advantage_cycles", .pyInt (regs 0x05C)),
   ("computations_per_sec", .pyInt (regs 0x060)),
   ("latency_us", .pyRat latency_us),
   ("trade_signal", .pyBool (status &&& 0x10000 != 0)),
   ("spread", .pyRat (ask_price - bid_price)),
   ("mid_price", .pyRat ((bid_price + ask_price) / 2))]

/-- Embedding of the hardware path of `MultiBaseOptimizer.optimize`
(`simulation_mode` false): after the input and control writes, the status
register is polled within the timeout budget; on completion the result
registers are read out, otherwise the timeout dictionary is returned. -/
def hwOptimize (statuses : ℕ → ℕ) (regs : ℕ → ℕ) (polls : ℕ)
    (bid_price ask_price : ℚ) (latency_us : ℚ) : List (String × PyVal) :=
  match pollStatus statuses polls 0 with
  | none => timeoutResult
  | some status => hwSuccessResult status regs bid_price ask_price latency_us

/-- The simulated entry price `mid + spread * 0.1`. -/
def simEntryPrice (bid ask : ℚ) : ℚ := (bid + ask) / 2 + (ask - bid) * 0.1

/-- The simulated exit price `entry + spread * 0.5`. -/
def simExitPrice (bid ask : ℚ) : ℚ := simEntryPrice bid ask + (ask - bid) * 0.5

/-- The simulated quantity `min(bid_size, ask_size) // 2`. -/
def simQuantity (bid_size ask_size : ℕ) : ℕ := min bid_size ask_size / 2

/-- The simulated profit `int((exit_price - entry_price) * quantity * 1000)`. -/
def simExpectedProfit (bid ask : ℚ) (bid_size ask_size : ℕ) : ℤ :=
  pyInt ((simExitPrice bid ask - simEntryPrice bid ask) *
    (simQuantity bid_size ask_size : ℚ) * 1000)

/-- Embedding of `MultiBaseOptimizer._simulate_optimization`, the software
fallback used whenever no FPGA is reachable. -/
def _simulate_optimization (bid ask last : ℚ) (bid_size ask_size : ℕ) :
    List (String × PyVal) :=
  [("success", .pyBool true),
   ("entry_price", .pyRat (simEntryPrice bid ask)),
   ("exit_price", .pyRat (simExitPrice bid ask)),
   ("quantity", .pyInt (simQuantity bid_size ask_size)),
   ("expected_profit", .pyInt (simExpectedProfit bid ask bid_size ask_size)),
   ("confidence", .pyRat 85.5),
   ("base_used", .pyStr "Dozenal"),
   ("base_used_id", .pyInt 2),
   ("cycles_taken", .pyInt 125),
   ("base12_advantage_cycles", .pyInt 15),
   ("computations_per_sec", .pyInt 800000),
   ("latency_us", .pyRat 1.25),
   ("trade_signal", .pyBool (decide (0 < simExpectedProfit bid ask bid_size ask_size))),
   ("spread", .pyRat (ask - bid)),
   ("mid_price", .pyRat ((bid + ask) / 2)),
   ("mode", .pyStr "simulation")]

/-- If no polled status has the completion bit set, the polling loop times out. -/
theorem pollStatus_none (statuses : ℕ → ℕ) :
    ∀ polls i : ℕ, (∀ j : ℕ, j < polls → statuses (i + j) &&& 0x01 = 0) →
      pollStatus statuses polls i = none := by
  intro polls
  induction polls with
  | zero => intro i _; rfl
  | succ polls ih =>
      intro i h
      have h0 : statuses i &&& 0x01 = 0 := by
        have := h 0 (Nat.succ_pos polls)
        simpa using this
      rw [pollStatus, if_neg (by simp [h0])]
      exact ih (i + 1) (fun j hj => by
        have := h (j + 1) (by omega)
        rwa [show i + 1 + j = i + (j + 1) by omega])

/-- C7: if the completion bit is never observed set during the timeout budget,
`optimize` returns the timeout dictionary, whose fields are exactly the error
string and the failure flag — none of the result payload fields are present. -/
theorem c7_timeout_no_payload (statuses regs : ℕ → ℕ) (polls : ℕ)
    (bid_price ask_price latency_us : ℚ)
    (h : ∀ j : ℕ, j < polls → statuses j &&& 0x01 = 0) :
    hwOptimize statuses regs polls bid_price ask_price latency_us =
      timeoutResult ∧
    (hwOptimize statuses regs polls bid_price ask_price latency_us).map
      Prod.fst = ["error", "success"] ∧
    ∀ k ∈ ["entry_price", "exit_price", "quantity", "expected_profit",
        "confidence", "base_used", "base_used_id", "cycles_taken",
        "base12_advantage_cycles", "computations_per_sec", "latency_us",
        "trade_signal", "spread", "mid_price"],
      k ∉ (hwOptimize statuses regs polls bid_price ask_price
        latency_us).map Prod.fst := by
  have hnone : pollStatus statuses polls 0 = none :=
    pollStatus_none statuses polls 0 (fun j hj => by simpa using h j hj)
  have heq : hwOptimize statuses regs polls bid_price ask_price latency_us =
      timeoutResult := by
    rw [hwOptimize, hnone]
  refine ⟨heq, ?_, ?_⟩
  · rw [heq]
    rfl
  · rw [heq]
    decide

/-- C7 witness: a status register that never sets bit 0, polled twice. -/
theorem c7_timeout_no_payload_witness :
    (∀ j : ℕ, j < 2 → (fun _ : ℕ => 0) j &&& 0x01 = 0) ∧
    hwOptimize (fun _ => 0) (fun _ => 0) 2 0 0 0 = timeoutResult :=
  ⟨fun _ _ => by simp,
    (c7_timeout_no_payload (fun _ => 0) (fun _ => 0) 2 0 0 0
      (fun _ _ => by simp)).1⟩

/-- C8: when the hardware path completes, the software fallback's result
dictionary has exactly the hardware path's fields plus the trailing `mode`
indicator, for every input; the indicator is observable as
`("mode", "simulation")`. -/
theorem c8_fallback_schema (statuses regs : ℕ → ℕ) (polls : ℕ)
    (bid ask last bid_price ask_price latency_us : ℚ)
    (bid_size ask_size : ℕ) (st : ℕ)
    (h : pollStatus statuses polls 0 = some st) :
    (_simulate_optimization bid ask last bid_size ask_size).map Prod.fst =
      (hwOptimize statuses regs polls bid_price ask_price latency_us).map
        Prod.fst ++ ["mode"] ∧
    ("mode", PyVal.pyStr "simulation") ∈
      _simulate_optimization bid ask last bid_size ask_size := by
  have heq : hwOptimize statuses regs polls bid_price ask_price latency_us =
      hwSuccessResult st regs bid_price ask_price latency_us := by
    rw [hwOptimize, h]
  rw [heq]
  constructor
  · rfl
  · simp [_simulate_optimization]

/-- C8 witness: a status register that completes on the first poll. -/
theorem c8_fallback_schema_witness :
    pollStatus (fun _ => 1) 1 0 = some 1 ∧
    (_simulate_optimization 0 0 0 0 0).map Prod.fst =
      (hwOptimize (fun _ => 1) (fun _ => 0) 1 0 0 0).map Prod.fst ++
        ["mode"] :=
  ⟨by decide,
    (c8_fallback_schema (fun _ => 1) (fun _ => 0) 1 0 0 0 0 0 0 0 0 1
      (by decide)).1⟩

end MultiBase
